import Mathlib

/-!
Shallow embedding of the MCP chatbot (`mcp_chatbot-pre-connecttoserverdedupe.py`):
the capability registry populated at bootstrap (`connect_to_server`,
`connect_to_servers`), the capability router (the shared `sessions` dict and its
`papers://` fallback in `get_resource`), the tool-use conversation loop
(`process_query`), prompt execution (`execute_prompt`) and the interactive
command dispatcher (`chat_loop` line parsing).

Conventions of the embedding:
- Python `dict` (insertion-ordered, assignment overwrites in place) is modelled
  as an association list `List (String × β)` with `dget` (= `dict.get`) and
  `dinsert` (= `d[k] = v`: replace in place if the key exists, else append).
- A backend connection (`ClientSession`) is identified by a `Nat` handle.
- The model service (`anthropic.messages.create`) is an opaque function; a call
  to a tool (`session.call_tool`) is an opaque function from the connection
  handle, tool name and input to the textual result content.
- Python string operations used by the code (`strip`, `lower`, `split`,
  `startswith`, `in`, `split('=', 1)`) are modelled on the character list
  `String.data` so that every definition evaluates inside the kernel.
-/

namespace MCPBot

/-- `dict.get k`: first (and, for dicts built by `dinsert`, only) binding of `k`. -/
def dget {β : Type} (m : List (String × β)) (k : String) : Option β :=
  match m with
  | [] => none
  | (k₀, v₀) :: rest => if k₀ = k then some v₀ else dget rest k

/-- `d[k] = v` on a Python dict: overwrite in place if `k` is present
(keeping its position, as Python dicts do), otherwise append at the end. -/
def dinsert {β : Type} (m : List (String × β)) (k : String) (v : β) : List (String × β) :=
  match m with
  | [] => [(k, v)]
  | (k₀, v₀) :: rest => if k₀ = k then (k, v) :: rest else (k₀, v₀) :: dinsert rest k v

/-- First-some choice on options (used to state lookup lemmas). -/
def orO {β : Type} (a b : Option β) : Option β :=
  match a with
  | some v => some v
  | none => b

/-- Entry appended to `available_tools` (name, description, input schema). -/
structure ToolDesc where
  name : String
  description : String
  input_schema : String
deriving DecidableEq

/-- Entry appended to `available_prompts` (name, description, argument names). -/
structure PromptDesc where
  name : String
  description : String
  arguments : List String
deriving DecidableEq

/-- Outcome of connecting to one configured backend and enumerating its
capabilities.  `conn` is the connection handle; each capability list is `none`
when the backend does not support that listing call (or the call raised, which
the code catches and skips) and `some l` when it returned `l`. -/
structure ServerCaps where
  conn : Nat
  tools : Option (List ToolDesc)
  prompts : Option (List PromptDesc)
  resources : Option (List String)
deriving DecidableEq

/-- One backend as processed by `connect_to_servers`: either the connection
attempt failed (`connect_to_server` returned `False`, nothing registered) or it
succeeded with the given enumeration outcome. -/
inductive ServerEntry
  | connectFail
  | ok (caps : ServerCaps)
deriving DecidableEq

/-- The chatbot state mutated during bootstrap: `available_tools`,
`available_prompts`, and the single shared `sessions` dict mapping tool names,
prompt names and resource URIs to connection handles. -/
structure BootState where
  available_tools : List ToolDesc
  available_prompts : List PromptDesc
  sessions : List (String × Nat)
deriving DecidableEq

/-- Registration of one listed tool: `self.sessions[tool.name] = session` and
the `available_tools.append(...)` of the descriptor. -/
def registerTool (conn : Nat) (st : BootState) (t : ToolDesc) : BootState :=
  { st with sessions := dinsert st.sessions t.name conn,
            available_tools := st.available_tools ++ [t] }

/-- Registration of one listed prompt: `self.sessions[prompt.name] = session`
and the `available_prompts.append(...)` of the descriptor. -/
def registerPromptEntry (conn : Nat) (st : BootState) (p : PromptDesc) : BootState :=
  { st with sessions := dinsert st.sessions p.name conn,
            available_prompts := st.available_prompts ++ [p] }

/-- Registration of one listed resource: `self.sessions[str(resource.uri)] = session`. -/
def registerResourceUri (conn : Nat) (st : BootState) (uri : String) : BootState :=
  { st with sessions := dinsert st.sessions uri conn }

/-- `MCP_ChatBot.connect_to_server`: on connection failure nothing is
registered; on success the listed tools, then prompts, then resources are
folded into the state in enumeration order. -/
def connect_to_server (st : BootState) (e : ServerEntry) : BootState :=
  match e with
  | ServerEntry.connectFail => st
  | ServerEntry.ok caps =>
    let st1 := (caps.tools.getD []).foldl (registerTool caps.conn) st
    let st2 := (caps.prompts.getD []).foldl (registerPromptEntry caps.conn) st1
    (caps.resources.getD []).foldl (registerResourceUri caps.conn) st2

/-- The state constructed by `__init__`: empty lists and empty `sessions`. -/
def initState : BootState := ⟨[], [], []⟩

/-- The registry produced by processing the configured backends in order. -/
def bootState (servers : List ServerEntry) : BootState :=
  servers.foldl connect_to_server initState

/-- The configuration source as `connect_to_servers` observes it: the file is
missing (`FileNotFoundError`), its JSON is malformed (`JSONDecodeError`), or it
parses and `config.get('mcpServers', {})` yields the given ordered mapping of
server name to backend outcome (an absent `mcpServers` key yields `ok []`). -/
inductive Config
  | missing
  | malformed
  | ok (servers : List (String × ServerEntry))

/-- `MCP_ChatBot.connect_to_servers`: returns `False` when the file is missing,
the JSON malformed, or `mcpServers` is empty (`if not servers: return False`);
otherwise connects to every backend in order and returns `True`. -/
def connect_to_servers : Config → Bool × BootState
  | Config.missing => (false, initState)
  | Config.malformed => (false, initState)
  | Config.ok servers =>
    if servers.isEmpty then (false, initState)
    else (true, bootState (servers.map Prod.snd))

/-- `main`: `chat_loop` runs iff `connect_to_servers` returned `True`. -/
def loopStarts (cfg : Config) : Bool := (connect_to_servers cfg).1

/-- One segment of a model response: a text block or a tool-use block
(tool name, request id `content.id`, structured input). -/
inductive Segment
  | text (s : String)
  | toolUse (name rid input : String)
deriving DecidableEq

/-- One message appended to the `messages` transcript of `process_query`.
`assistantMsg` records the value of the (in Python, shared and mutable)
`assistant_content` list at the moment of the append. -/
inductive Msg
  | userQuery (s : String)
  | assistantMsg (content : List Segment)
  | toolResultMsg (tool_use_id content : String)
deriving DecidableEq

/-- Whether a segment is a tool-use block. -/
def isToolUseB : Segment → Bool
  | Segment.text _ => false
  | Segment.toolUse _ _ _ => true

/-- Names of the tool-use blocks of a response, in order. -/
def toolNames (segs : List Segment) : List String :=
  segs.filterMap (fun sg =>
    match sg with
    | Segment.toolUse nm _ _ => some nm
    | _ => none)

/-- Request ids of the tool-use blocks of a response, in order. -/
def toolUseIds (segs : List Segment) : List String :=
  segs.filterMap (fun sg =>
    match sg with
    | Segment.toolUse _ rid _ => some rid
    | _ => none)

/-- The `for content in response.content` loop of `process_query`.
`acc` is the running `assistant_content` list; the result is the list of
messages appended to the transcript, the name reported as
`Tool '<name>' not found.` if the inner `break` fired, and the final
`has_tool_use` flag.  A text block is printed (not modelled) and added to
`assistant_content`; a tool-use block is added to `assistant_content`, an
assistant message is appended to the transcript, the name is resolved via
`self.sessions.get`, and on failure the loop breaks while on success the tool
is called and a `tool_result` user message tagged with the request id is
appended. -/
def processSegs (sessions : List (String × Nat)) (ct : Nat → String → String → String)
    (acc : List Segment) : List Segment → List Msg × Option String × Bool
  | [] => ([], none, false)
  | Segment.text s :: rest => processSegs sessions ct (acc ++ [Segment.text s]) rest
  | Segment.toolUse nm rid inp :: rest =>
    let acc2 := acc ++ [Segment.toolUse nm rid inp]
    match dget sessions nm with
    | none => ([Msg.assistantMsg acc2], some nm, true)
    | some c =>
      let r := processSegs sessions ct acc2 rest
      (Msg.assistantMsg acc2 :: Msg.toolResultMsg rid (ct c nm inp) :: r.1, r.2.1, true)

/-- Processing of one whole model response (the loop body of `process_query`
after `messages.create` returns), starting from `assistant_content = []`. -/
def processResponse (sessions : List (String × Nat)) (ct : Nat → String → String → String)
    (segs : List Segment) : List Msg × Option String × Bool :=
  processSegs sessions ct [] segs

/-- Number of assistant messages among the appended messages. -/
def countAssistant (ms : List Msg) : Nat :=
  ms.countP (fun m =>
    match m with
    | Msg.assistantMsg _ => true
    | _ => false)

/-- The `tool_use_id` tags of the appended tool-result messages, in order. -/
def resultIds (ms : List Msg) : List String :=
  ms.filterMap (fun m =>
    match m with
    | Msg.toolResultMsg rid _ => some rid
    | _ => none)

/-- The (tool_use_id, result content) pairs of the appended tool-result
messages, in order. -/
def resultPairs (ms : List Msg) : List (String × String) :=
  ms.filterMap (fun m =>
    match m with
    | Msg.toolResultMsg rid c => some (rid, c)
    | _ => none)

/-- The `while True` loop of `process_query`.  `resp round` is the response the
opaque model service returns on the given round of the query; `msgs` is the
transcript so far; `fuel` bounds the number of rounds so that the function is
total (`none` = the fuel ran out before the model stopped requesting tools).
On each round the response is processed, the produced messages are appended,
and the loop exits iff `has_tool_use` is false. -/
def runLoop (sessions : List (String × Nat)) (ct : Nat → String → String → String)
    (resp : Nat → List Segment) : Nat → List Msg → Nat → Option (List Msg × Nat)
  | _, _, 0 => none
  | round, msgs, fuel + 1 =>
    let r := processResponse sessions ct (resp round)
    if r.2.2 then runLoop sessions ct resp (round + 1) (msgs ++ r.1) fuel
    else some (msgs ++ r.1, round)

/-- `MCP_ChatBot.process_query`: the transcript starts with the user message
and the loop runs from round 0. -/
def process_query (sessions : List (String × Nat)) (ct : Nat → String → String → String)
    (resp : Nat → List Segment) (query : String) (fuel : Nat) : Option (List Msg × Nat) :=
  runLoop sessions ct resp 0 [Msg.userQuery query] fuel

/-- `startsChars p s`: the character list `p` is an initial run of `s`. -/
def startsChars : List Char → List Char → Bool
  | [], _ => true
  | _ :: _, [] => false
  | a :: as, b :: bs => a == b && startsChars as bs

/-- Python `s.startswith(p)`. -/
def pyStarts (s p : String) : Bool := startsChars p.data s.data

/-- `MCP_ChatBot.get_resource` up to the routing decision: exact lookup in
`sessions`; if that fails and the URI starts with `papers://`, fall back to the
first registered key (in dict order) that starts with `papers://`; otherwise
the resource is reported not found (`none`). -/
def get_resource (sessions : List (String × Nat)) (resource_uri : String) : Option Nat :=
  match dget sessions resource_uri with
  | some session => some session
  | none =>
    if pyStarts resource_uri "papers://" then
      match sessions.find? (fun p => pyStarts p.1 "papers://") with
      | some p => some p.2
      | none => none
    else none

/-- Routing outcome of `MCP_ChatBot.execute_prompt`. -/
inductive PromptRes
  | notFound
  | executed (conn : Nat)
deriving DecidableEq

/-- `MCP_ChatBot.execute_prompt` up to the routing decision: exact lookup of
the prompt name in `sessions`; no fallback of any kind. -/
def execute_prompt (sessions : List (String × Nat)) (prompt_name : String) : PromptRes :=
  match dget sessions prompt_name with
  | none => PromptRes.notFound
  | some c => PromptRes.executed c

/-- `arg.split('=', 1)` guarded by `'=' in arg`: `none` when the token has no
`'='`, otherwise the characters before the first `'='` and all characters
after it. -/
def splitEqChars : List Char → Option (List Char × List Char)
  | [] => none
  | c :: cs =>
    if c = '=' then some ([], cs)
    else
      match splitEqChars cs with
      | none => none
      | some kv => some (c :: kv.1, kv.2)

/-- String version of `splitEqChars`. -/
def splitFirstEq (s : String) : Option (String × String) :=
  match splitEqChars s.data with
  | none => none
  | some kv => some (⟨kv.1⟩, ⟨kv.2⟩)

/-- The `for arg in parts[2:]` loop of `chat_loop`: each token containing `'='`
is split on the first `'='` and assigned into the `args` dict (overwriting a
previous binding of the same key); tokens without `'='` are skipped. -/
def parseArgs (tokens : List String) : List (String × String) :=
  tokens.foldl (fun args t =>
    match splitFirstEq t with
    | none => args
    | some kv => dinsert args kv.1 kv.2) []

/-- Python `s.strip()` (whitespace from both ends). -/
def pyStrip (s : String) : String :=
  ⟨((s.data.dropWhile Char.isWhitespace).reverse.dropWhile Char.isWhitespace).reverse⟩

/-- Python `s.lower()`. -/
def pyLower (s : String) : String := ⟨s.data.map Char.toLower⟩

/-- Python `s.split()` with no separator: maximal non-whitespace runs,
no empty tokens.  `acc` holds the current run reversed. -/
def wordsAux : List Char → List Char → List String
  | acc, [] => if acc.isEmpty then [] else [⟨acc.reverse⟩]
  | acc, c :: cs =>
    if c.isWhitespace then
      if acc.isEmpty then wordsAux [] cs
      else (⟨acc.reverse⟩ : String) :: wordsAux [] cs
    else wordsAux (c :: acc) cs

/-- Python `s.split()`. -/
def pySplit (s : String) : List String := wordsAux [] s.data

/-- The action the `chat_loop` body takes for one input line. -/
inductive Action
  | skip
  | quit
  | fetchResource (uri : String)
  | listPrompts
  | usage
  | executePromptCmd (name : String) (args : List (String × String))
  | unknownCommand (cmd : String)
  | query (text : String)
deriving DecidableEq

/-- The dispatch performed by one iteration of `MCP_ChatBot.chat_loop` on an
input line: strip; ignore empty lines; `quit` (case-insensitive) exits;
`@folders` / `@<topic>` fetch a `papers://` resource; `/`-lines are split into
whitespace-separated parts with `parts[0].lower()` as the command — `/prompts`
lists prompts, `/prompt` with fewer than two parts prints the usage message,
`/prompt <name> ...` parses the remaining tokens into arguments and executes
the prompt, and any other command is reported unknown; anything else is a plain
query. -/
def handleLine (line : String) : Action :=
  let query := pyStrip line
  if query.data.isEmpty then Action.skip
  else if pyLower query = "quit" then Action.quit
  else if pyStarts query "@" then
    let topic : String := ⟨query.data.drop 1⟩
    if topic = "folders" then Action.fetchResource "papers://folders"
    else Action.fetchResource ("papers://" ++ topic)
  else if pyStarts query "/" then
    let parts := pySplit query
    let command := pyLower (parts.headD "")
    if command = "/prompts" then Action.listPrompts
    else if command = "/prompt" then
      if parts.length < 2 then Action.usage
      else Action.executePromptCmd (parts.getD 1 "") (parseArgs (parts.drop 2))
    else Action.unknownCommand command
  else Action.query query

/-- The string keys a backend registers into `sessions`, in registration order:
tool names, then prompt names, then resource URIs. -/
def regKeys : ServerEntry → List String
  | ServerEntry.connectFail => []
  | ServerEntry.ok caps =>
    (caps.tools.getD []).map ToolDesc.name ++ (caps.prompts.getD []).map PromptDesc.name
      ++ caps.resources.getD []

/-- The connection handle of a backend (irrelevant for a failed connection,
which registers no keys). -/
def connOf : ServerEntry → Nat
  | ServerEntry.connectFail => 0
  | ServerEntry.ok caps => caps.conn

/-- The (key, connection) pairs a backend writes into `sessions`, in order. -/
def serverPairs (e : ServerEntry) : List (String × Nat) :=
  (regKeys e).map (fun k => (k, connOf e))

/-- The full registration sequence of a bootstrap run, in order. -/
def regSeq : List ServerEntry → List (String × Nat)
  | [] => []
  | e :: es => serverPairs e ++ regSeq es

/-- The binding produced by the last pair of `ps` carrying key `k`. -/
def lastAssoc {β : Type} (ps : List (String × β)) (k : String) : Option β :=
  dget ps.reverse k

/-- Folding a sequence of dict assignments into a dict. -/
def foldDinsert {β : Type} (m : List (String × β)) (ps : List (String × β)) :
    List (String × β) :=
  ps.foldl (fun m p => dinsert m p.1 p.2) m

theorem orO_none {β : Type} (a : Option β) : orO a none = a := by
  cases a <;> rfl

theorem orO_assoc {β : Type} (a b c : Option β) : orO (orO a b) c = orO a (orO b c) := by
  cases a <;> rfl

theorem dget_dinsert {β : Type} (m : List (String × β)) (k k₀ : String) (v : β) :
    dget (dinsert m k v) k₀ = if k = k₀ then some v else dget m k₀ := by
  induction m with
  | nil => simp [dget, dinsert]
  | cons p rest ih =>
    obtain ⟨k₁, v₁⟩ := p
    by_cases h1 : k₁ = k
    · subst h1
      by_cases h2 : k₁ = k₀ <;> simp [dinsert, dget, h2]
    · by_cases h2 : k₁ = k₀
      · subst h2
        have hk : ¬k = k₁ := fun hh => h1 hh.symm
        simp [dinsert, dget, h1, hk]
      · simp [dinsert, dget, h1, h2, ih]

theorem dget_append {β : Type} (l₁ l₂ : List (String × β)) (k : String) :
    dget (l₁ ++ l₂) k = orO (dget l₁ k) (dget l₂ k) := by
  induction l₁ with
  | nil => simp [dget, orO]
  | cons p rest ih =>
    obtain ⟨k₁, v₁⟩ := p
    by_cases h : k₁ = k <;> simp [dget, h, ih, orO]

theorem foldDinsert_cons {β : Type} (m : List (String × β)) (p : String × β)
    (ps : List (String × β)) : foldDinsert m (p :: ps) = foldDinsert (dinsert m p.1 p.2) ps := rfl

theorem foldDinsert_append {β : Type} (m : List (String × β)) (ps qs : List (String × β)) :
    foldDinsert m (ps ++ qs) = foldDinsert (foldDinsert m ps) qs := by
  simp [foldDinsert, List.foldl_append]

theorem dget_foldDinsert {β : Type} (ps : List (String × β)) (m : List (String × β))
    (k : String) : dget (foldDinsert m ps) k = orO (lastAssoc ps k) (dget m k) := by
  induction ps generalizing m with
  | nil => simp [foldDinsert, lastAssoc, dget, orO]
  | cons p rest ih =>
    obtain ⟨k₁, v₁⟩ := p
    rw [foldDinsert_cons, ih]
    unfold lastAssoc
    rw [List.reverse_cons, dget_append, dget_dinsert, orO_assoc]
    congr 1
    by_cases h : k₁ = k <;> simp [dget, h, orO]

theorem lastAssoc_append {β : Type} (ps qs : List (String × β)) (k : String) :
    lastAssoc (ps ++ qs) k = orO (lastAssoc qs k) (lastAssoc ps k) := by
  simp [lastAssoc, List.reverse_append, dget_append]

theorem dget_of_nodup {β : Type} (ps : List (String × β)) (n : String) (c : β)
    (hnd : (ps.map Prod.fst).Nodup) (hm : (n, c) ∈ ps) : dget ps n = some c := by
  induction ps with
  | nil => cases hm
  | cons p rest ih =>
    obtain ⟨k₁, v₁⟩ := p
    rcases List.mem_cons.mp hm with h | h
    · obtain ⟨h1, h2⟩ := Prod.mk.injEq .. ▸ h
      subst h1; subst h2
      simp [dget]
    · have h1 : ¬k₁ = n := by
        intro he
        subst he
        exact (List.nodup_cons.mp hnd).1 (List.mem_map.mpr ⟨(k₁, c), h, rfl⟩)
      simp [dget, h1, ih (List.nodup_cons.mp hnd).2 h]

theorem sessions_foldTools (c : Nat) (ts : List ToolDesc) (st : BootState) :
    (ts.foldl (registerTool c) st).sessions
      = foldDinsert st.sessions (ts.map (fun t => (t.name, c))) := by
  induction ts generalizing st with
  | nil => rfl
  | cons t rest ih => simp [List.foldl_cons, ih, registerTool, foldDinsert_cons]

theorem sessions_foldPrompts (c : Nat) (ps : List PromptDesc) (st : BootState) :
    (ps.foldl (registerPromptEntry c) st).sessions
      = foldDinsert st.sessions (ps.map (fun p => (p.name, c))) := by
  induction ps generalizing st with
  | nil => rfl
  | cons p rest ih => simp [List.foldl_cons, ih, registerPromptEntry, foldDinsert_cons]

theorem sessions_foldResources (c : Nat) (us : List String) (st : BootState) :
    (us.foldl (registerResourceUri c) st).sessions
      = foldDinsert st.sessions (us.map (fun u => (u, c))) := by
  induction us generalizing st with
  | nil => rfl
  | cons u rest ih => simp [List.foldl_cons, ih, registerResourceUri, foldDinsert_cons]

theorem sessions_connect_to_server (st : BootState) (e : ServerEntry) :
    (connect_to_server st e).sessions = foldDinsert st.sessions (serverPairs e) := by
  cases e with
  | connectFail => rfl
  | ok caps =>
    simp only [connect_to_server, serverPairs, regKeys, connOf]
    rw [sessions_foldResources, sessions_foldPrompts, sessions_foldTools]
    rw [List.map_append, List.map_append, foldDinsert_append, foldDinsert_append,
      List.map_map, List.map_map]
    rfl

theorem regSeq_append (xs ys : List ServerEntry) :
    regSeq (xs ++ ys) = regSeq xs ++ regSeq ys := by
  induction xs with
  | nil => rfl
  | cons e es ih => simp [regSeq, ih]

theorem sessions_boot_aux (servers : List ServerEntry) (st : BootState) :
    (servers.foldl connect_to_server st).sessions = foldDinsert st.sessions (regSeq servers) := by
  induction servers generalizing st with
  | nil => rfl
  | cons e es ih =>
    simp [List.foldl_cons, ih, sessions_connect_to_server, regSeq, foldDinsert_append]

theorem dget_bootState (servers : List ServerEntry) (k : String) :
    dget (bootState servers).sessions k = lastAssoc (regSeq servers) k := by
  rw [bootState, sessions_boot_aux, dget_foldDinsert]
  simp [initState, dget, orO_none]

theorem dget_constMap (l : List String) (c : Nat) (n : String) :
    dget (l.map (fun k => (k, c))) n = if n ∈ l then some c else none := by
  induction l with
  | nil => simp [dget]
  | cons a rest ih =>
    by_cases h : a = n
    · simp [dget, h]
    · simp [dget, h, ih, Ne.symm h]

theorem lastAssoc_serverPairs (e : ServerEntry) (n : String) :
    lastAssoc (serverPairs e) n = if n ∈ regKeys e then some (connOf e) else none := by
  unfold lastAssoc serverPairs
  rw [← List.map_reverse, dget_constMap]
  simp [List.mem_reverse]

theorem lastAssoc_regSeq_none (ss : List ServerEntry) (n : String)
    (h : ∀ e ∈ ss, n ∉ regKeys e) : lastAssoc (regSeq ss) n = none := by
  induction ss with
  | nil => rfl
  | cons e es ih =>
    rw [regSeq, lastAssoc_append, ih (fun e' he' => h e' (List.mem_cons_of_mem _ he')),
      lastAssoc_serverPairs]
    simp [h e (List.mem_cons_self e es), orO]

theorem mem_regSeq (servers : List ServerEntry) (e : ServerEntry) (n : String)
    (he : e ∈ servers) (hn : n ∈ regKeys e) : (n, connOf e) ∈ regSeq servers := by
  induction servers with
  | nil => cases he
  | cons e₀ es ih =>
    rw [regSeq]
    rcases List.mem_cons.mp he with h | h
    · subst h
      exact List.mem_append.mpr (Or.inl (List.mem_map.mpr ⟨n, hn, rfl⟩))
    · exact List.mem_append.mpr (Or.inr (ih h))

theorem processSegs_flag (sessions : List (String × Nat)) (ct : Nat → String → String → String) :
    ∀ (segs : List Segment) (acc : List Segment),
      (processSegs sessions ct acc segs).2.2 = segs.any isToolUseB := by
  intro segs
  induction segs with
  | nil => intro acc; rfl
  | cons sg rest ih =>
    intro acc
    cases sg with
    | text s => simp [processSegs, List.any_cons, isToolUseB, ih]
    | toolUse nm rid inp =>
      rcases h : dget sessions nm with _ | c <;>
        simp [processSegs, h, List.any_cons, isToolUseB]

theorem processResponse_flag (sessions : List (String × Nat))
    (ct : Nat → String → String → String) (segs : List Segment) :
    (processResponse sessions ct segs).2.2 = segs.any isToolUseB :=
  processSegs_flag sessions ct segs []

theorem toolNames_cons_text (s : String) (rest : List Segment) :
    toolNames (Segment.text s :: rest) = toolNames rest := rfl

theorem toolNames_cons_tool (nm rid inp : String) (rest : List Segment) :
    toolNames (Segment.toolUse nm rid inp :: rest) = nm :: toolNames rest := rfl

theorem toolUseIds_cons_text (s : String) (rest : List Segment) :
    toolUseIds (Segment.text s :: rest) = toolUseIds rest := rfl

theorem toolUseIds_cons_tool (nm rid inp : String) (rest : List Segment) :
    toolUseIds (Segment.toolUse nm rid inp :: rest) = rid :: toolUseIds rest := rfl

theorem toolUseIds_length (segs : List Segment) :
    (toolUseIds segs).length = segs.countP isToolUseB := by
  induction segs with
  | nil => rfl
  | cons sg rest ih =>
    cases sg with
    | text s => simpa [toolUseIds_cons_text, List.countP_cons, isToolUseB] using ih
    | toolUse nm rid inp =>
      simp [toolUseIds_cons_tool, List.countP_cons, isToolUseB, ih]

theorem processSegs_resolved (sessions : List (String × Nat))
    (ct : Nat → String → String → String) :
    ∀ (segs : List Segment) (acc : List Segment),
      (∀ nm ∈ toolNames segs, (dget sessions nm).isSome = true) →
      (processSegs sessions ct acc segs).2.1 = none
      ∧ resultPairs (processSegs sessions ct acc segs).1
          = segs.filterMap (fun sg =>
              match sg with
              | Segment.toolUse nm rid inp => (dget sessions nm).map (fun c => (rid, ct c nm inp))
              | _ => none)
      ∧ countAssistant (processSegs sessions ct acc segs).1 = segs.countP isToolUseB
      ∧ resultIds (processSegs sessions ct acc segs).1 = toolUseIds segs := by
  intro segs
  induction segs with
  | nil => intro acc _; exact ⟨rfl, rfl, rfl, rfl⟩
  | cons sg rest ih =>
    intro acc h
    cases sg with
    | text s =>
      have h' : ∀ nm ∈ toolNames rest, (dget sessions nm).isSome = true := by
        intro nm hm
        exact h nm (by rw [toolNames_cons_text]; exact hm)
      obtain ⟨i1, i2, i3, i4⟩ := ih (acc ++ [Segment.text s]) h'
      refine ⟨by simpa [processSegs] using i1, ?_, ?_, ?_⟩
      · simpa [processSegs, List.filterMap_cons] using i2
      · simpa [processSegs, List.countP_cons, isToolUseB] using i3
      · simpa [processSegs, toolUseIds_cons_text] using i4
    | toolUse nm rid inp =>
      have hs : (dget sessions nm).isSome = true :=
        h nm (by rw [toolNames_cons_tool]; exact List.mem_cons_self _ _)
      rcases hc : dget sessions nm with _ | c
      · rw [hc] at hs; cases hs
      have h' : ∀ nm' ∈ toolNames rest, (dget sessions nm').isSome = true := by
        intro nm' hm
        exact h nm' (by rw [toolNames_cons_tool]; exact List.mem_cons_of_mem _ hm)
      obtain ⟨i1, i2, i3, i4⟩ := ih (acc ++ [Segment.toolUse nm rid inp]) h'
      refine ⟨by simpa [processSegs, hc] using i1, ?_, ?_, ?_⟩
      · simpa [processSegs, hc, resultPairs, List.filterMap_cons] using i2
      · simp [processSegs, hc, countAssistant, List.countP_cons, isToolUseB] at i3 ⊢
        omega
      · simpa [processSegs, hc, resultIds, toolUseIds_cons_tool, List.filterMap_cons] using i4

theorem processSegs_abort (sessions : List (String × Nat))
    (ct : Nat → String → String → String) (n rid inp : String) (post : List Segment)
    (hn : dget sessions n = none) :
    ∀ (pre : List Segment) (acc : List Segment),
      (∀ nm ∈ toolNames pre, (dget sessions nm).isSome = true) →
      (processSegs sessions ct acc (pre ++ Segment.toolUse n rid inp :: post)).2.1 = some n
      ∧ resultIds (processSegs sessions ct acc (pre ++ Segment.toolUse n rid inp :: post)).1
          = toolUseIds pre
      ∧ (processSegs sessions ct acc (pre ++ Segment.toolUse n rid inp :: post)).2.2 = true := by
  intro pre
  induction pre with
  | nil =>
    intro acc _
    refine ⟨?_, ?_, ?_⟩ <;> simp [processSegs, hn, resultIds, toolUseIds]
  | cons sg rest ih =>
    intro acc h
    cases sg with
    | text s =>
      have h' : ∀ nm ∈ toolNames rest, (dget sessions nm).isSome = true := by
        intro nm hm
        exact h nm (by rw [toolNames_cons_text]; exact hm)
      obtain ⟨i1, i2, i3⟩ := ih (acc ++ [Segment.text s]) h'
      refine ⟨by simpa [processSegs] using i1, ?_, by simpa [processSegs] using i3⟩
      simpa [processSegs, toolUseIds_cons_text] using i2
    | toolUse nm rid' inp' =>
      have hs : (dget sessions nm).isSome = true :=
        h nm (by rw [toolNames_cons_tool]; exact List.mem_cons_self _ _)
      rcases hc : dget sessions nm with _ | c
      · rw [hc] at hs; cases hs
      have h' : ∀ nm' ∈ toolNames rest, (dget sessions nm').isSome = true := by
        intro nm' hm
        exact h nm' (by rw [toolNames_cons_tool]; exact List.mem_cons_of_mem _ hm)
      obtain ⟨i1, i2, i3⟩ := ih (acc ++ [Segment.toolUse nm rid' inp']) h'
      refine ⟨by simpa [processSegs, hc] using i1, ?_, by simp [processSegs, hc]⟩
      simpa [processSegs, hc, resultIds, toolUseIds_cons_tool, List.filterMap_cons] using i2

theorem runLoop_step_continue (sessions : List (String × Nat))
    (ct : Nat → String → String → String) (resp : Nat → List Segment)
    (round : Nat) (msgs : List Msg) (fuel : Nat)
    (h : (processResponse sessions ct (resp round)).2.2 = true) :
    runLoop sessions ct resp round msgs (fuel + 1)
      = runLoop sessions ct resp (round + 1)
          (msgs ++ (processResponse sessions ct (resp round)).1) fuel := by
  simp [runLoop, h]

theorem runLoop_step_stop (sessions : List (String × Nat))
    (ct : Nat → String → String → String) (resp : Nat → List Segment)
    (round : Nat) (msgs : List Msg) (fuel : Nat)
    (h : (processResponse sessions ct (resp round)).2.2 = false) :
    runLoop sessions ct resp round msgs (fuel + 1)
      = some (msgs ++ (processResponse sessions ct (resp round)).1, round) := by
  simp [runLoop, h]

theorem runLoop_stop_flag (sessions : List (String × Nat))
    (ct : Nat → String → String → String) (resp : Nat → List Segment) :
    ∀ (fuel round : Nat) (msgs out : List Msg) (r : Nat),
      runLoop sessions ct resp round msgs fuel = some (out, r) →
      (resp r).any isToolUseB = false := by
  intro fuel
  induction fuel with
  | zero =>
    intro round msgs out r h
    simp [runLoop] at h
  | succ fuel ih =>
    intro round msgs out r h
    by_cases hf : (processResponse sessions ct (resp round)).2.2 = true
    · rw [runLoop_step_continue sessions ct resp round msgs fuel hf] at h
      exact ih _ _ _ _ h
    · have hf2 : (processResponse sessions ct (resp round)).2.2 = false := by
        simpa using hf
      rw [runLoop_step_stop sessions ct resp round msgs fuel hf2] at h
      obtain ⟨-, h2⟩ := Prod.mk.injEq .. ▸ Option.some.injEq .. ▸ h
      subst h2
      rw [← processResponse_flag sessions ct]
      exact hf2

theorem runLoop_reaches (sessions : List (String × Nat))
    (ct : Nat → String → String → String) (resp : Nat → List Segment) :
    ∀ (k start : Nat) (msgs : List Msg),
      (∀ m, m < k → (resp (start + m)).any isToolUseB = true) →
      (resp (start + k)).any isToolUseB = false →
      ∃ out, runLoop sessions ct resp start msgs (k + 1) = some (out, start + k) := by
  intro k
  induction k with
  | zero =>
    intro start msgs _ hk
    refine ⟨msgs ++ (processResponse sessions ct (resp start)).1, ?_⟩
    have hf : (processResponse sessions ct (resp start)).2.2 = false := by
      rw [processResponse_flag]
      simpa using hk
    simpa using runLoop_step_stop sessions ct resp start msgs 0 hf
  | succ k ih =>
    intro start msgs hlt hk
    have h0 : (resp start).any isToolUseB = true := by
      simpa using hlt 0 (Nat.succ_pos k)
    have hf : (processResponse sessions ct (resp start)).2.2 = true := by
      rw [processResponse_flag]
      exact h0
    rw [runLoop_step_continue sessions ct resp start msgs (k + 1) hf]
    have hlt2 : ∀ m, m < k → (resp (start + 1 + m)).any isToolUseB = true := by
      intro m hm
      have hx := hlt (m + 1) (Nat.succ_lt_succ hm)
      rwa [show start + (m + 1) = start + 1 + m by omega] at hx
    have hk2 : (resp (start + 1 + k)).any isToolUseB = false := by
      rwa [show start + 1 + k = start + (k + 1) by omega]
    obtain ⟨out, hout⟩ := ih (start + 1) (msgs ++ (processResponse sessions ct (resp start)).1)
      hlt2 hk2
    refine ⟨out, ?_⟩
    rwa [show start + 1 + k = start + (k + 1) by omega] at hout

theorem splitEqChars_of_no_eq (l : List Char) (h : '=' ∉ l) : splitEqChars l = none := by
  induction l with
  | nil => rfl
  | cons c cs ih =>
    have hc : ¬c = '=' := fun hh => h (hh ▸ List.mem_cons_self c cs)
    simp [splitEqChars, hc, ih (fun hm => h (List.mem_cons_of_mem c hm))]

theorem splitEqChars_around_eq (v : List Char) :
    ∀ k : List Char, '=' ∉ k → splitEqChars (k ++ '=' :: v) = some (k, v) := by
  intro k
  induction k with
  | nil => intro _; simp [splitEqChars]
  | cons c cs ih =>
    intro h
    have hc : ¬c = '=' := fun hh => h (hh ▸ List.mem_cons_self c cs)
    simp [splitEqChars, hc, ih (fun hm => h (List.mem_cons_of_mem c hm))]

theorem parseArgs_foldl (ts : List String) :
    ∀ args : List (String × String),
      ts.foldl (fun args t =>
        match splitFirstEq t with
        | none => args
        | some kv => dinsert args kv.1 kv.2) args
      = foldDinsert args (ts.filterMap splitFirstEq) := by
  induction ts with
  | nil => intro args; rfl
  | cons t rest ih =>
    intro args
    rcases h : splitFirstEq t with _ | kv <;>
      simp [List.foldl_cons, List.filterMap_cons, h, ih, foldDinsert_cons]

theorem parseArgs_eq (ts : List String) :
    parseArgs ts = foldDinsert [] (ts.filterMap splitFirstEq) :=
  parseArgs_foldl ts []

theorem dget_parseArgs (ts : List String) (k : String) :
    dget (parseArgs ts) k = lastAssoc (ts.filterMap splitFirstEq) k := by
  rw [parseArgs_eq, dget_foldDinsert]
  simp [dget, orO_none]

/-- Claim C1, counterexample: with a well-formed configuration whose
`mcpServers` mapping has zero entries, `connect_to_servers` does NOT return the
success value (the claim says it reports success); it returns `False`. -/
theorem c1_counterexample : (connect_to_servers (Config.ok [])).1 = false := rfl

/-- Claim C1 (amended): if the configuration file exists and is well-formed
JSON but the `mcpServers` mapping is absent or empty, bootstrap reports
FAILURE: `connect_to_servers` returns the failure value, the tool and prompt
lists are empty, the router resolves nothing, and the interactive loop does
not start (`main` exits before `chat_loop`). -/
theorem c1_empty_config_fails :
    connect_to_servers (Config.ok []) = (false, initState)
    ∧ (connect_to_servers (Config.ok [])).2.available_tools = []
    ∧ (connect_to_servers (Config.ok [])).2.available_prompts = []
    ∧ (∀ k : String, dget (connect_to_servers (Config.ok [])).2.sessions k = none)
    ∧ loopStarts (Config.ok []) = false :=
  ⟨rfl, rfl, rfl, fun _ => rfl, rfl⟩

/-- Claim C2, counterexample: for a model response with two (resolvable)
tool-invocation-requests, the driver appends TWO assistant messages to the
transcript, not exactly one as the claim states. -/
theorem c2_counterexample :
    countAssistant (processResponse [("t", 1)] (fun _ _ _ => "r")
        [Segment.toolUse "t" "i1" "x", Segment.toolUse "t" "i2" "y"]).1 = 2
    ∧ countAssistant (processResponse [("t", 1)] (fun _ _ _ => "r")
        [Segment.toolUse "t" "i1" "x", Segment.toolUse "t" "i2" "y"]).1 ≠ 1 := by
  constructor <;> decide

/-- Claim C2 (amended): for every model response whose tool-invocation-requests
all resolve, the driver appends one assistant message per tool-invocation-
request of the response (each appended right before that request is
dispatched, carrying the segments produced so far), so the number of assistant
messages appended equals the number of tool-invocation-requests and also the
number of appended tool results — not exactly one per response. -/
theorem c2_one_assistant_msg_per_request (sessions : List (String × Nat))
    (ct : Nat → String → String → String) (segs : List Segment)
    (h : ∀ nm ∈ toolNames segs, (dget sessions nm).isSome = true) :
    countAssistant (processResponse sessions ct segs).1 = segs.countP isToolUseB
    ∧ countAssistant (processResponse sessions ct segs).1
        = (resultIds (processResponse sessions ct segs).1).length := by
  obtain ⟨-, -, i3, i4⟩ := processSegs_resolved sessions ct segs [] h
  exact ⟨i3, by rw [show processResponse sessions ct segs = processSegs sessions ct [] segs
    from rfl, i3, i4, toolUseIds_length]⟩

/-- Witness for C2 (amended) at a concrete response with one resolvable
tool-invocation-request. -/
theorem c2_one_assistant_msg_per_request_witness :
    countAssistant (processResponse [("t", 1)] (fun _ _ _ => "r")
        [Segment.toolUse "t" "i1" "x"]).1
      = List.countP isToolUseB [Segment.toolUse "t" "i1" "x"] :=
  (c2_one_assistant_msg_per_request [("t", 1)] (fun _ _ _ => "r")
    [Segment.toolUse "t" "i1" "x"] (by decide)).1

/-- Claim C8: parsing the trailing tokens of a `/prompt <name> ...` line maps
each `key=value` token to an entry key -> value (splitting on the first `=`
only), the last occurrence of a duplicate key wins, tokens without `=` are
ignored, and the three concrete examples of the claim hold, both for
`parseArgs` alone and through the full command dispatcher. -/
theorem c8_argument_parsing :
    parseArgs ["a=1", "b=2"] = [("a", "1"), ("b", "2")]
    ∧ parseArgs ["a=1", "a=2"] = [("a", "2")]
    ∧ parseArgs ["bare"] = []
    ∧ (∀ (ts : List String) (k : String),
        dget (parseArgs ts) k = lastAssoc (ts.filterMap splitFirstEq) k)
    ∧ (∀ (ts₁ ts₂ : List String) (t : String), splitFirstEq t = none →
        parseArgs (ts₁ ++ t :: ts₂) = parseArgs (ts₁ ++ ts₂))
    ∧ (∀ t : String, '=' ∉ t.data → splitFirstEq t = none)
    ∧ (∀ k v : String, '=' ∉ k.data → splitFirstEq (k ++ "=" ++ v) = some (k, v))
    ∧ handleLine "/prompt foo a=1 b=2" = Action.executePromptCmd "foo" [("a", "1"), ("b", "2")]
    ∧ handleLine "/prompt foo a=1 a=2" = Action.executePromptCmd "foo" [("a", "2")]
    ∧ handleLine "/prompt foo bare" = Action.executePromptCmd "foo" [] := by
  refine ⟨by decide, by decide, by decide, dget_parseArgs, ?_, ?_, ?_, by decide, by decide,
    by decide⟩
  · intro ts₁ ts₂ t ht
    rw [parseArgs_eq, parseArgs_eq, List.filterMap_append, List.filterMap_append,
      List.filterMap_cons, ht]
  · intro t ht
    simp [splitFirstEq, splitEqChars_of_no_eq t.data ht]
  · intro k v h
    have hd : (k ++ "=" ++ v).data = k.data ++ '=' :: v.data := by
      rw [String.data_append, String.data_append]
      simp
    simp [splitFirstEq, hd, splitEqChars_around_eq v.data k.data h]

/-- Witness for C8 at concrete inputs: a skipped token without `=`, and a
token whose value itself contains `=` (split happens at the first `=` only). -/
theorem c8_argument_parsing_witness :
    parseArgs (["x=1"] ++ "bare" :: ["y=2"]) = parseArgs (["x=1"] ++ ["y=2"])
    ∧ splitFirstEq ("ab" ++ "=" ++ "c=d") = some ("ab", "c=d") :=
  ⟨(c8_argument_parsing.2.2.2.2.1) ["x=1"] ["y=2"] "bare" (by decide),
   (c8_argument_parsing.2.2.2.2.2.2.1) "ab" "c=d" (by decide)⟩

/-- Claim C10: the input line `/prompt` with no prompt name yields the usage
message action: no prompt execution, no resource fetch, no plain query (so no
router lookup and no backend call), and not the quit action (the session
continues to the next input). -/
theorem c10_bare_prompt_command :
    handleLine "/prompt" = Action.usage
    ∧ (∀ (nm : String) (args : List (String × String)),
        handleLine "/prompt" ≠ Action.executePromptCmd nm args)
    ∧ (∀ uri : String, handleLine "/prompt" ≠ Action.fetchResource uri)
    ∧ (∀ t : String, handleLine "/prompt" ≠ Action.query t)
    ∧ handleLine "/prompt" ≠ Action.quit := by
  have h : handleLine "/prompt" = Action.usage := by decide
  refine ⟨h, ?_, ?_, ?_, ?_⟩ <;> simp [h]

/-- Claim C3: when, during dispatch of one model response, a request named `n`
does not resolve in the router (all earlier requests of the response do), the
driver reports `n` as not found, appends tool results exactly for the requests
before the unresolved one (nothing from the rest of the response), does not
terminate the query or the session (`has_tool_use` is true), and the loop
resubmits: the next round runs on the transcript extended by exactly the
messages gathered before the abort. -/
theorem c3_unresolved_tool_aborts_batch (sessions : List (String × Nat))
    (ct : Nat → String → String → String) (resp : Nat → List Segment)
    (pre post : List Segment) (n rid inp : String) (round fuel : Nat) (msgs : List Msg)
    (hpre : ∀ nm ∈ toolNames pre, (dget sessions nm).isSome = true)
    (hn : dget sessions n = none)
    (hresp : resp round = pre ++ Segment.toolUse n rid inp :: post) :
    (processResponse sessions ct (resp round)).2.1 = some n
    ∧ resultIds (processResponse sessions ct (resp round)).1 = toolUseIds pre
    ∧ (processResponse sessions ct (resp round)).2.2 = true
    ∧ runLoop sessions ct resp round msgs (fuel + 1)
        = runLoop sessions ct resp (round + 1)
            (msgs ++ (processResponse sessions ct (resp round)).1) fuel := by
  obtain ⟨h1, h2, h3⟩ := processSegs_abort sessions ct n rid inp post hn pre [] hpre
  have e1 : (processResponse sessions ct (resp round)).2.1 = some n := by
    rw [hresp]; exact h1
  have e2 : resultIds (processResponse sessions ct (resp round)).1 = toolUseIds pre := by
    rw [hresp]; exact h2
  have e3 : (processResponse sessions ct (resp round)).2.2 = true := by
    rw [hresp]; exact h3
  exact ⟨e1, e2, e3, runLoop_step_continue sessions ct resp round msgs fuel e3⟩

/-- Witness for C3: two requests, the first resolvable, the second unknown;
the not-found name is reported, exactly the first result is kept, and the
loop continues past the aborted batch. -/
theorem c3_unresolved_tool_aborts_batch_witness :
    (processResponse [("a", 1)] (fun _ _ _ => "r")
        ((fun _ => [Segment.toolUse "a" "i1" "x", Segment.toolUse "b" "i2" "y",
          Segment.text "z"]) 0)).2.1 = some "b"
    ∧ resultIds (processResponse [("a", 1)] (fun _ _ _ => "r")
        ((fun _ => [Segment.toolUse "a" "i1" "x", Segment.toolUse "b" "i2" "y",
          Segment.text "z"]) 0)).1 = toolUseIds [Segment.toolUse "a" "i1" "x"]
    ∧ (processResponse [("a", 1)] (fun _ _ _ => "r")
        ((fun _ => [Segment.toolUse "a" "i1" "x", Segment.toolUse "b" "i2" "y",
          Segment.text "z"]) 0)).2.2 = true
    ∧ runLoop [("a", 1)] (fun _ _ _ => "r")
        (fun _ => [Segment.toolUse "a" "i1" "x", Segment.toolUse "b" "i2" "y",
          Segment.text "z"]) 0 [] (0 + 1)
        = runLoop [("a", 1)] (fun _ _ _ => "r")
            (fun _ => [Segment.toolUse "a" "i1" "x", Segment.toolUse "b" "i2" "y",
              Segment.text "z"]) (0 + 1)
            ([] ++ (processResponse [("a", 1)] (fun _ _ _ => "r")
              ((fun _ => [Segment.toolUse "a" "i1" "x", Segment.toolUse "b" "i2" "y",
                Segment.text "z"]) 0)).1) 0 :=
  c3_unresolved_tool_aborts_batch [("a", 1)] (fun _ _ _ => "r")
    (fun _ => [Segment.toolUse "a" "i1" "x", Segment.toolUse "b" "i2" "y", Segment.text "z"])
    [Segment.toolUse "a" "i1" "x"] [Segment.text "z"] "b" "i2" "y" 0 0 []
    (by decide) (by decide) rfl

/-- Claim C4: `process_query` terminates after finitely many rounds whenever
some response in the round sequence has zero tool-invocation-requests (it
stops at the first such round, every earlier round having at least one), and
it never terminates on a round whose response contains a
tool-invocation-request. -/
theorem c4_loop_termination (sessions : List (String × Nat))
    (ct : Nat → String → String → String) (resp : Nat → List Segment) (query : String)
    (h : ∃ nr : Nat, (resp nr).any isToolUseB = false) :
    (∃ (fuel : Nat) (out : List Msg) (r : Nat),
        process_query sessions ct resp query fuel = some (out, r)
        ∧ (resp r).any isToolUseB = false
        ∧ ∀ m, m < r → (resp m).any isToolUseB = true)
    ∧ (∀ (fuel round : Nat) (msgs out : List Msg) (r : Nat),
        runLoop sessions ct resp round msgs fuel = some (out, r) →
        (resp r).any isToolUseB = false) := by
  constructor
  · have hN : (resp (Nat.find h)).any isToolUseB = false := Nat.find_spec h
    have hlt : ∀ m, m < Nat.find h → (resp m).any isToolUseB = true := by
      intro m hm
      have hx := Nat.find_min h hm
      simpa using hx
    obtain ⟨out, hout⟩ := runLoop_reaches sessions ct resp (Nat.find h) 0
      [Msg.userQuery query] (by simpa using hlt) (by simpa using hN)
    exact ⟨Nat.find h + 1, out, Nat.find h, by simpa [process_query] using hout, hN, hlt⟩
  · intro fuel round msgs out r hrun
    exact runLoop_stop_flag sessions ct resp fuel round msgs out r hrun

/-- Witness for C4: a concrete round sequence whose second response has no
tool-invocation-request. -/
theorem c4_loop_termination_witness :
    (∃ (fuel : Nat) (out : List Msg) (r : Nat),
        process_query [("t", 1)] (fun _ _ _ => "r")
            (fun nr => if nr = 0 then [Segment.toolUse "t" "i" "x"] else []) "hi" fuel
          = some (out, r)
        ∧ ((fun nr => if nr = 0 then [Segment.toolUse "t" "i" "x"] else []) r).any isToolUseB
            = false
        ∧ ∀ m, m < r →
            ((fun nr => if nr = 0 then [Segment.toolUse "t" "i" "x"] else []) m).any isToolUseB
              = true)
    ∧ (∀ (fuel round : Nat) (msgs out : List Msg) (r : Nat),
        runLoop [("t", 1)] (fun _ _ _ => "r")
            (fun nr => if nr = 0 then [Segment.toolUse "t" "i" "x"] else []) round msgs fuel
          = some (out, r) →
        ((fun nr => if nr = 0 then [Segment.toolUse "t" "i" "x"] else []) r).any isToolUseB
          = false) :=
  c4_loop_termination [("t", 1)] (fun _ _ _ => "r")
    (fun nr => if nr = 0 then [Segment.toolUse "t" "i" "x"] else []) "hi" ⟨1, by decide⟩

/-- Claim C5: when every tool-invocation-request of a model response resolves,
the requests are dispatched sequentially in the exact order the segments
appear, and each appended tool-result message carries the `tool_use_id` of the
request that produced it (the full ordered id/result pairing matches the
per-request calls). -/
theorem c5_ordered_dispatch_and_tagging (sessions : List (String × Nat))
    (ct : Nat → String → String → String) (segs : List Segment)
    (h : ∀ nm ∈ toolNames segs, (dget sessions nm).isSome = true) :
    resultIds (processResponse sessions ct segs).1 = toolUseIds segs
    ∧ resultPairs (processResponse sessions ct segs).1
        = segs.filterMap (fun sg =>
            match sg with
            | Segment.toolUse nm rid inp => (dget sessions nm).map (fun c => (rid, ct c nm inp))
            | _ => none) := by
  obtain ⟨-, i2, -, i4⟩ := processSegs_resolved sessions ct segs [] h
  exact ⟨i4, i2⟩

/-- Witness for C5 at a concrete two-request response. -/
theorem c5_ordered_dispatch_and_tagging_witness :
    resultIds (processResponse [("a", 1), ("b", 2)] (fun _ nm _ => nm)
        [Segment.toolUse "a" "i1" "x", Segment.text "mid", Segment.toolUse "b" "i2" "y"]).1
      = toolUseIds [Segment.toolUse "a" "i1" "x", Segment.text "mid",
          Segment.toolUse "b" "i2" "y"] :=
  (c5_ordered_dispatch_and_tagging [("a", 1), ("b", 2)] (fun _ nm _ => nm)
    [Segment.toolUse "a" "i1" "x", Segment.text "mid", Segment.toolUse "b" "i2" "y"]
    (by decide)).1

/-- Claim C6: router resolution is exact-match for tool and prompt names
(whenever the exact key is absent, tool dispatch reports not-found and prompt
execution reports not-found, whatever else is registered), while for resource
URIs an exact hit is returned as such and otherwise resolution falls back iff
the URI starts with `papers://`: with the fallback, if no registered key
starts with `papers://` the URI is not found, and if some registered key does,
the resource resolves to a connection registered under a `papers://` key; a
non-`papers://` unregistered URI is not found. -/
theorem c6_router_resolution (sessions : List (String × Nat))
    (ct : Nat → String → String → String) (name uri rid inp : String) (c : Nat) :
    (dget sessions name = none →
      (processResponse sessions ct [Segment.toolUse name rid inp]).2.1 = some name)
    ∧ (dget sessions name = none → execute_prompt sessions name = PromptRes.notFound)
    ∧ (dget sessions uri = some c → get_resource sessions uri = some c)
    ∧ (dget sessions uri = none → pyStarts uri "papers://" = false →
        get_resource sessions uri = none)
    ∧ (dget sessions uri = none → pyStarts uri "papers://" = true →
        (∀ p ∈ sessions, pyStarts p.1 "papers://" = false) →
        get_resource sessions uri = none)
    ∧ (dget sessions uri = none → pyStarts uri "papers://" = true →
        ∀ k₀ c₀, (k₀, c₀) ∈ sessions → pyStarts k₀ "papers://" = true →
        ∃ k₁ c₁, (k₁, c₁) ∈ sessions ∧ pyStarts k₁ "papers://" = true
          ∧ get_resource sessions uri = some c₁) := by
  refine ⟨?_, ?_, ?_, ?_, ?_, ?_⟩
  · intro h
    simp [processResponse, processSegs, h]
  · intro h
    simp [execute_prompt, h]
  · intro h
    simp [get_resource, h]
  · intro h1 h2
    simp [get_resource, h1, h2]
  · intro h1 h2 hall
    have hf : sessions.find? (fun p => pyStarts p.1 "papers://") = none :=
      List.find?_eq_none.mpr (fun x hx => by simp [hall x hx])
    simp [get_resource, h1, h2, hf]
  · intro h1 h2 k₀ c₀ hk hs
    rcases hf : sessions.find? (fun p => pyStarts p.1 "papers://") with _ | p
    · exfalso
      have hno := List.find?_eq_none.mp hf (k₀, c₀) hk
      simp [hs] at hno
    · have hp := List.find?_some hf
      refine ⟨p.1, p.2, by simpa using List.mem_of_find?_eq_some hf, by simpa using hp, ?_⟩
      simp [get_resource, h1, h2, hf]

/-- Witness for C6: exact-miss prompt lookup, exact resource hit, unregistered
non-`papers://` URI, and the `papers://` fallback at concrete registries. -/
theorem c6_router_resolution_witness :
    execute_prompt [("papers://x", 5)] "t" = PromptRes.notFound
    ∧ get_resource [("papers://y", 5)] "papers://y" = some 5
    ∧ get_resource [("other", 3)] "nope" = none
    ∧ (∃ k₁ c₁, (k₁, c₁) ∈ ([("papers://x", 5)] : List (String × Nat))
        ∧ pyStarts k₁ "papers://" = true
        ∧ get_resource [("papers://x", 5)] "papers://zz" = some c₁) := by
  refine ⟨?_, ?_, ?_, ?_⟩
  · exact (c6_router_resolution [("papers://x", 5)] (fun _ _ _ => "") "t" "u" "r" "i"
      0).2.1 (by decide)
  · exact (c6_router_resolution [("papers://y", 5)] (fun _ _ _ => "") "n" "papers://y" "r" "i"
      5).2.2.1 (by decide)
  · exact (c6_router_resolution [("other", 3)] (fun _ _ _ => "") "n" "nope" "r" "i"
      0).2.2.2.1 (by decide) (by decide)
  · exact (c6_router_resolution [("papers://x", 5)] (fun _ _ _ => "") "n" "papers://zz" "r" "i"
      0).2.2.2.2.2 (by decide) (by decide) "papers://x" 5 (by decide) (by decide)

/-- Claim C7: when several backends register the same capability name, the
connection of the backend processed later wins (lookup after bootstrap yields
the later connection, registration itself being total raises nothing), and for
backends whose registered names are pairwise distinct, every registered name
resolves to the connection of the backend that registered it. -/
theorem c7_last_write_wins :
    (∀ (ss1 : List ServerEntry) (caps : ServerCaps) (ss2 : List ServerEntry) (n : String),
        n ∈ regKeys (ServerEntry.ok caps) →
        (∀ e ∈ ss2, n ∉ regKeys e) →
        dget (bootState (ss1 ++ ServerEntry.ok caps :: ss2)).sessions n = some caps.conn)
    ∧ (∀ (servers : List ServerEntry),
        ((regSeq servers).map Prod.fst).Nodup →
        ∀ e ∈ servers, ∀ n ∈ regKeys e,
          dget (bootState servers).sessions n = some (connOf e)) := by
  constructor
  · intro ss1 caps ss2 n hn h2
    rw [dget_bootState, regSeq_append,
      show regSeq (ServerEntry.ok caps :: ss2)
        = serverPairs (ServerEntry.ok caps) ++ regSeq ss2 from rfl,
      lastAssoc_append, lastAssoc_append, lastAssoc_regSeq_none ss2 n h2,
      lastAssoc_serverPairs]
    simp [hn, orO, connOf]
  · intro servers hnd e he n hn
    rw [dget_bootState, lastAssoc]
    refine dget_of_nodup _ n (connOf e) ?_
      (List.mem_reverse.mpr (mem_regSeq servers e n he hn))
    rw [List.map_reverse]
    exact List.nodup_reverse.mpr hnd

/-- Witness for C7: two backends both register a tool named `x`; lookup after
bootstrap yields the second connection. -/
theorem c7_last_write_wins_witness :
    dget (bootState
      [ServerEntry.ok ⟨1, some [⟨"x", "", ""⟩], some [], some []⟩,
       ServerEntry.ok ⟨2, some [⟨"x", "", ""⟩], some [], some []⟩]).sessions "x" = some 2 := by
  have h := c7_last_write_wins.1 [ServerEntry.ok ⟨1, some [⟨"x", "", ""⟩], some [], some []⟩]
    ⟨2, some [⟨"x", "", ""⟩], some [], some []⟩ [] "x" (by decide)
    (fun e he => absurd he (List.not_mem_nil e))
  simpa using h

/-- Claim C9: tool names, prompt names and resource URIs are registered into
the single shared `sessions` mapping — lookup after bootstrap equals the last
write in the one interleaved registration sequence, with no distinction
between capability kinds — and concretely, a later backend registering a
prompt named `x` overwrites an earlier backend's tool entry `x`, so a
subsequent tool dispatch of `x` resolves to (and calls) the later backend's
connection. -/
theorem c9_shared_sessions_map :
    (∀ (servers : List ServerEntry) (n : String),
        dget (bootState servers).sessions n = lastAssoc (regSeq servers) n)
    ∧ dget (bootState
        [ServerEntry.ok ⟨1, some [⟨"x", "a tool", ""⟩], some [], some []⟩,
         ServerEntry.ok ⟨2, some [], some [⟨"x", "a prompt", []⟩], some []⟩]).sessions "x"
        = some 2
    ∧ processResponse (bootState
        [ServerEntry.ok ⟨1, some [⟨"x", "a tool", ""⟩], some [], some []⟩,
         ServerEntry.ok ⟨2, some [], some [⟨"x", "a prompt", []⟩], some []⟩]).sessions
        (fun c _ _ => toString c) [Segment.toolUse "x" "r1" "q"]
      = ([Msg.assistantMsg [Segment.toolUse "x" "r1" "q"], Msg.toolResultMsg "r1" "2"],
          none, true) :=
  ⟨dget_bootState, by decide, by decide⟩

end MCPBot
